import Mathlib

/-!
Verification of the insight-extraction scripts of `insight-scaling-webpage`
(`scripts/extract_all_datasets.py` and `scripts/extract_interactive_data.py`).

The data model and the operations are embedded shallowly:

* an insight record (the dictionaries built by `load_all_insights`) becomes
  the structure `Insight`, with the score modelled as an integer;
* Python's stable `sorted(..., key=lambda x: x["score"])` is modelled by
  `List.insertionSort` on the score order, which is a stable sort;
* Python list indexing `l[i]` (with negative-index wraparound and
  `IndexError`) becomes `pyIndex`, returning `Option`;
* Python's `range(start, stop, step)` becomes `pyRange`, returning `none`
  exactly when `step = 0` (the `ValueError` branch);
* functions whose Python counterparts can raise return `Option`; file-system
  effects (directory walking, image copying, JSON writing) are elided, and
  the JSON document that `process_dataset` would write is materialised as
  the structure `OutputData`, with `none` meaning that nothing is written.
-/

/-- One loaded insight record: the dictionary appended by
`load_all_insights` (score, insight text, resolved image path, run name,
original path).  The float score is modelled as an integer. -/
structure Insight where
  score : Int
  insight : String
  img_path : String
  run_name : String
  original_path : String
deriving DecidableEq, Repr

/-- The comparison used by `sorted(insights, key=lambda x: x["score"])`:
compare records by their score. -/
def scoreLe (a b : Insight) : Prop := a.score ≤ b.score

instance : DecidableRel scoreLe := fun a b => decidable_of_iff (a.score ≤ b.score) Iff.rfl

instance : IsTotal Insight scoreLe := ⟨fun a b => Int.le_total a.score b.score⟩

instance : IsTrans Insight scoreLe := ⟨fun _ _ _ h₁ h₂ => Int.le_trans h₁ h₂⟩

/-- Python's `sorted(insights, key=lambda x: x["score"])`: a stable sort by
score, modelled by insertion sort (which is stable). -/
def sortByScore (l : List Insight) : List Insight := List.insertionSort scoreLe l

/-- Python list indexing `l[i]`: a negative index is shifted by `len(l)`,
and an out-of-range index raises `IndexError`, modelled as `none`. -/
def pyIndex {α : Type} (l : List α) (i : Int) : Option α :=
  if 0 ≤ i then l[i.toNat]?
  else if 0 ≤ i + (l.length : Int) then l[(i + (l.length : Int)).toNat]? else none

/-- The number of elements of Python's `range(start, stop, step)` for
`step ≠ 0` (the usual ceiling formulas). -/
def pyRangeLen (start stop step : Int) : Nat :=
  if 0 < step then ((stop - start + step - 1) / step).toNat
  else ((start - stop - step - 1) / (- step)).toNat

/-- Python's `range(start, stop, step)` as a list; `range` raises
`ValueError` when `step = 0`, modelled as `none`. -/
def pyRange (start stop step : Int) : Option (List Int) :=
  if step = 0 then none
  else some ((List.range (pyRangeLen start stop step)).map fun i : Nat => start + step * (i : Int))

/-- One raw entry of a parsed `insights_validated.json` list: `avg_scores`
may be absent or JSON `null` (both read back as `None` by `ins.get`,
modelled as `none`), and the `insight` text may be absent. -/
structure RawInsight where
  avg_scores : Option Int
  insight : Option String
deriving DecidableEq, Repr

/-- `os.path.basename`: the part of the path after the last separator. -/
def osBasename (p : String) : String := ((p.splitOn ("/")).getLast?).getD ("")

/-- `os.path.join` for two components, in the POSIX form used here. -/
def osJoin (a b : String) : String :=
  if b.startsWith ("/") then b
  else if a = "" ∨ a.endsWith ("/") then a ++ b
  else a ++ ("/") ++ b

/-- The record appended by `load_all_insights` for an entry whose
`avg_scores` is present: score, insight text (defaulting to the empty
string), the image path resolved into `run_dir/viz/verified`, the run name
and the original path. -/
def mkInsightRecord (run_dir run_name img_path : String) (score : Int)
    (text : Option String) : Insight :=
  { score := score
    insight := text.getD ("")
    img_path := osJoin (osJoin (osJoin run_dir ("viz")) ("verified")) (osBasename img_path)
    run_name := run_name
    original_path := img_path }

namespace ExtractAllDatasets

/-- The record-construction loop of `load_all_insights` in
`extract_all_datasets.py` (lines 64-79): for one run directory, given the
parsed JSON mapping image paths to lists of raw entries, append one record
per entry whose `avg_scores` is not `None`.  The surrounding directory
traversal is a file-system effect and is elided; this is the part that
decides which entries contribute records. -/
def load_all_insights (run_dir run_name : String)
    (data : List (String × List RawInsight)) : List Insight :=
  data.flatMap fun p =>
    p.2.filterMap fun ins =>
      match ins.avg_scores with
      | some score => some (mkInsightRecord run_dir run_name p.1 score ins.insight)
      | none => none

/-- `sample_insights` of `extract_all_datasets.py`: sort by score, keep the
first element, every `interval`-th index strictly below `n - 1`, and the
last element; return the sampled records together with their indices into
the sorted sequence. -/
def sample_insights (insights : List Insight) (interval : Int) :
    Option (List Insight × List Int) :=
  let sorted_insights := sortByScore insights
  let n := sorted_insights.length
  if n = 0 then some ([], [])
  else if n = 1 then (pyIndex sorted_insights 0).map fun x => ([x], [0])
  else
    let last_idx : Int := (n : Int) - 1
    (pyIndex sorted_insights 0).bind fun first =>
    (pyRange interval last_idx interval).bind fun mid_indices =>
    (mid_indices.mapM (pyIndex sorted_insights)).bind fun mid_sampled =>
    (pyIndex sorted_insights (-1)).map fun lastEl =>
    (first :: mid_sampled ++ [lastEl], 0 :: mid_indices ++ [last_idx])

/-- The `curve` object assembled by `process_dataset`. -/
structure CurveData where
  scores : List Int
  total_count : Nat
  avg_score : Rat
  min_score : Int
  max_score : Int
deriving DecidableEq, Repr

/-- One element of the `samples` array assembled by `process_dataset`. -/
structure SamplePoint where
  index : Int
  score : Int
  insight : String
  img_url : String
  run_name : String
deriving DecidableEq, Repr

/-- The JSON document `process_dataset` writes to
`data/interactive_<key>.json`. -/
structure OutputData where
  dataset : String
  display_name : String
  curve : CurveData
  samples : List SamplePoint
  interval : Int
deriving DecidableEq, Repr

/-- `process_dataset` of `extract_all_datasets.py`, given the records
already loaded for the dataset: when no record qualifies it logs an error
and returns without writing (modelled as `none`); otherwise it builds the
curve statistics and the sampled points and writes the output document
(modelled as `some`).  Directory creation and image copying are
file-system effects and are elided; `round(score, 2)` is the identity on
the integer scores of the model. -/
def process_dataset (dataset_key display_name : String) (interval : Int)
    (all_insights : List Insight) : Option OutputData :=
  if all_insights.length = 0 then none
  else
    let sorted_insights := sortByScore all_insights
    let all_scores := sorted_insights.map fun ins => ins.score
    (sample_insights all_insights interval).map fun sp =>
      let curve_data : CurveData :=
        { scores := all_scores
          total_count := all_scores.length
          avg_score :=
            if all_scores ≠ [] then
              ((all_scores.foldl (fun a b => a + b) 0 : Int) : Rat) / (all_scores.length : Rat)
            else 0
          min_score := match all_scores with | [] => 0 | x :: xs => xs.foldl min x
          max_score := match all_scores with | [] => 0 | x :: xs => xs.foldl max x }
      let sampled_data := (sp.1.zip sp.2).mapIdx fun i p =>
        { index := p.2
          score := p.1.score
          insight := p.1.insight
          img_url := ("img/interactive_") ++ dataset_key ++ ("/sample_") ++ toString i ++ (".png")
          run_name := p.1.run_name }
      { dataset := dataset_key
        display_name := display_name
        curve := curve_data
        samples := sampled_data
        interval := interval }

end ExtractAllDatasets

namespace ExtractInteractiveData

/-- `sample_insights` of `extract_interactive_data.py` (lines 59-88): the
same sampling routine as in `extract_all_datasets.py`, translated from its
own source.  The two Python functions differ only in the default value of
`interval` (20 instead of 10), which is explicit here. -/
def sample_insights (insights : List Insight) (interval : Int) :
    Option (List Insight × List Int) :=
  let sorted_insights := sortByScore insights
  let n := sorted_insights.length
  if n = 0 then some ([], [])
  else if n = 1 then (pyIndex sorted_insights 0).map fun x => ([x], [0])
  else
    let last_idx : Int := (n : Int) - 1
    (pyIndex sorted_insights 0).bind fun first =>
    (pyRange interval last_idx interval).bind fun mid_indices =>
    (mid_indices.mapM (pyIndex sorted_insights)).bind fun mid_sampled =>
    (pyIndex sorted_insights (-1)).map fun lastEl =>
    (first :: mid_sampled ++ [lastEl], 0 :: mid_indices ++ [last_idx])

end ExtractInteractiveData

/-- The middle sampled indices for a sorted sequence of length `n` and a
positive stride `k`: what `range(k, n - 1, k)` yields. -/
def midIndices (k : Int) (n : Nat) : List Int :=
  (List.range (pyRangeLen k ((n : Int) - 1) k)).map fun i : Nat => k + k * (i : Int)

/-- Test fixture: a record carrying only a score. -/
def mkRec (s : Int) : Insight := ⟨s, "", "", "", ""⟩

/-- Test fixture: 25 records with scores `0..24` (spec scenario). -/
def recs25 : List Insight := (List.range 25).map fun i : Nat => mkRec (i : Int)

/-- Test fixture: 5 records with scores `[5, 3, 1, 4, 2]` (spec scenario). -/
def recs5 : List Insight := [mkRec 5, mkRec 3, mkRec 1, mkRec 4, mkRec 2]

/-! ### Helper lemmas about the Python primitives -/

theorem pyIndex_nonneg {α : Type} (l : List α) (i : Int) (h : 0 ≤ i) :
    pyIndex l i = l[i.toNat]? := by
  unfold pyIndex
  rw [if_pos h]

theorem pyIndex_zero {α : Type} (l : List α) : pyIndex l 0 = l.head? := by
  rw [pyIndex_nonneg l 0 le_rfl, List.head?_eq_getElem?]
  rfl

theorem pyIndex_neg_one {α : Type} (l : List α) (h : l ≠ []) :
    pyIndex l (-1) = l.getLast? := by
  have hl : 0 < l.length := List.length_pos.mpr h
  unfold pyIndex
  rw [if_neg (by omega), if_pos (by omega), List.getLast?_eq_getElem?]
  congr 1
  omega

theorem pyIndex_last {α : Type} (l : List α) (h : l ≠ []) :
    pyIndex l ((l.length : Int) - 1) = l.getLast? := by
  have hl : 0 < l.length := List.length_pos.mpr h
  rw [pyIndex_nonneg l _ (by omega), List.getLast?_eq_getElem?]
  congr 1
  omega

theorem pyIndex_isSome_of {α : Type} (l : List α) (i : Int) (h0 : 0 ≤ i)
    (h1 : i < (l.length : Int)) : ∃ x, pyIndex l i = some x := by
  rw [pyIndex_nonneg l i h0]
  have hlt : i.toNat < l.length := by omega
  exact ⟨_, List.getElem?_eq_getElem hlt⟩

theorem mapM_eq_some_of_forall {α β : Type} (f : α → Option β) :
    ∀ l : List α, (∀ a ∈ l, ∃ b, f a = some b) →
      ∃ r, l.mapM f = some r ∧ r.length = l.length := by
  intro l
  induction l with
  | nil => intro _; exact ⟨[], rfl, rfl⟩
  | cons a t ih =>
    intro h
    obtain ⟨b, hb⟩ := h a (List.mem_cons_self a t)
    obtain ⟨r, hr, hlen⟩ := ih fun x hx => h x (List.mem_cons_of_mem a hx)
    refine ⟨b :: r, ?_, by simp [hlen]⟩
    rw [List.mapM_cons, hb, hr]
    rfl

theorem mapM_append_some {α β : Type} (f : α → Option β) {l₁ l₂ : List α}
    {r₁ r₂ : List β} (h₁ : l₁.mapM f = some r₁) (h₂ : l₂.mapM f = some r₂) :
    (l₁ ++ l₂).mapM f = some (r₁ ++ r₂) := by
  rw [List.mapM_append, h₁, h₂]
  rfl

theorem lt_pyRangeLen_iff {start stop step : Int} (h : 0 < step) (i : Nat) :
    i < pyRangeLen start stop step ↔ start + step * (i : Int) < stop := by
  unfold pyRangeLen
  rw [if_pos h, Int.lt_toNat, Int.lt_iff_add_one_le, Int.le_ediv_iff_mul_le h]
  constructor
  · intro hx
    nlinarith
  · intro hx
    nlinarith

theorem pyRange_pos_eq {start stop step : Int} (h : 0 < step) :
    pyRange start stop step =
      some ((List.range (pyRangeLen start stop step)).map fun i : Nat => start + step * (i : Int)) := by
  unfold pyRange
  rw [if_neg (by omega)]

theorem pyRange_eq_midIndices {k : Int} (hk : 1 ≤ k) (n : Nat) :
    pyRange k ((n : Int) - 1) k = some (midIndices k n) := by
  rw [pyRange_pos_eq (by omega)]
  rfl

theorem mem_midIndices {k : Int} (hk : 1 ≤ k) {n : Nat} {x : Int} :
    x ∈ midIndices k n ↔ ∃ m : Int, 1 ≤ m ∧ x = k * m ∧ x < (n : Int) - 1 := by
  unfold midIndices
  simp only [List.mem_map, List.mem_range]
  constructor
  · rintro ⟨i, hi, rfl⟩
    have hlt := (lt_pyRangeLen_iff (by omega) i).mp hi
    exact ⟨(i : Int) + 1, by omega, by ring, hlt⟩
  · rintro ⟨m, hm1, rfl, hlt⟩
    have hm : (((m - 1).toNat : Nat) : Int) = m - 1 := Int.toNat_of_nonneg (by omega)
    refine ⟨(m - 1).toNat, ?_, ?_⟩
    · rw [lt_pyRangeLen_iff (by omega), hm]
      nlinarith
    · rw [hm]
      ring

theorem pairwise_midIndices {k : Int} (hk : 1 ≤ k) (n : Nat) :
    (midIndices k n).Pairwise (fun a b => a < b) := by
  unfold midIndices
  refine List.Pairwise.map _ ?_ (List.pairwise_lt_range _)
  intro a b hab
  have hab2 : (a : Int) < (b : Int) := by exact_mod_cast hab
  have := mul_lt_mul_of_pos_left hab2 (show (0 : Int) < k by omega)
  linarith

theorem midIndices_bounds {k : Int} (hk : 1 ≤ k) {n : Nat} {x : Int}
    (hx : x ∈ midIndices k n) : 1 ≤ x ∧ x < (n : Int) - 1 := by
  obtain ⟨m, hm1, rfl, hlt⟩ := (mem_midIndices hk).mp hx
  refine ⟨by nlinarith, hlt⟩

/-! ### Helper lemmas about the stable sort by score -/

theorem length_sortByScore (l : List Insight) : (sortByScore l).length = l.length :=
  (List.perm_insertionSort _ _).length_eq

theorem mem_sortByScore {x : Insight} {l : List Insight} : x ∈ sortByScore l ↔ x ∈ l :=
  (List.perm_insertionSort _ _).mem_iff

theorem sorted_sortByScore (l : List Insight) : (sortByScore l).Sorted scoreLe :=
  List.sorted_insertionSort scoreLe l

theorem sortByScore_idem (l : List Insight) : sortByScore (sortByScore l) = sortByScore l :=
  List.Sorted.insertionSort_eq (sorted_sortByScore l)

theorem sorted_head_min (l : List Insight) {y : Insight}
    (hy : (sortByScore l).head? = some y) {x : Insight} (hx : x ∈ l) :
    y.score ≤ x.score := by
  have hx2 : x ∈ sortByScore l := mem_sortByScore.mpr hx
  have hsort := sorted_sortByScore l
  cases hsl : sortByScore l with
  | nil => rw [hsl] at hy; cases hy
  | cons a t =>
    rw [hsl] at hy hx2 hsort
    have hay : a = y := by simpa using hy
    subst hay
    rcases List.mem_cons.mp hx2 with h | h
    · subst h; exact le_refl _
    · exact (List.sorted_cons.mp hsort).1 x h

theorem sorted_getLast_max (l : List Insight) {y : Insight}
    (hy : (sortByScore l).getLast? = some y) {x : Insight} (hx : x ∈ l) :
    x.score ≤ y.score := by
  have hx2 : x ∈ (sortByScore l).reverse := List.mem_reverse.mpr (mem_sortByScore.mpr hx)
  have hy2 : (sortByScore l).reverse.head? = some y := by
    rw [List.head?_reverse]; exact hy
  have hsort : ((sortByScore l).reverse).Pairwise (fun a b => scoreLe b a) :=
    List.pairwise_reverse.mpr (sorted_sortByScore l)
  cases hsl : (sortByScore l).reverse with
  | nil => rw [hsl] at hy2; cases hy2
  | cons a t =>
    rw [hsl] at hy2 hx2 hsort
    have hay : a = y := by simpa using hy2
    subst hay
    rcases List.mem_cons.mp hx2 with h | h
    · subst h; exact le_refl _
    · exact (List.pairwise_cons.mp hsort).1 x h

namespace ExtractAllDatasets

/-- Shape of `sample_insights` on a list of length at least 2 with a
positive stride: it succeeds, the indices are `0`, the middle multiples of
the stride, and `n - 1`, and the sampled records are the corresponding
lookups in the sorted sequence. -/
theorem sample_insights_structure (l : List Insight) (k : Int) (hk : 1 ≤ k)
    (h2 : 2 ≤ l.length) :
    ∃ x0 xl sm,
      (sortByScore l).head? = some x0 ∧
      (sortByScore l).getLast? = some xl ∧
      (midIndices k l.length).mapM (pyIndex (sortByScore l)) = some sm ∧
      sm.length = (midIndices k l.length).length ∧
      sample_insights l k =
        some (x0 :: sm ++ [xl], 0 :: midIndices k l.length ++ [(l.length : Int) - 1]) := by
  have hlen : (sortByScore l).length = l.length := length_sortByScore l
  have hne : sortByScore l ≠ [] := by
    intro hnil
    rw [hnil] at hlen
    simp at hlen
    omega
  obtain ⟨x0, hx0⟩ : ∃ x0, (sortByScore l).head? = some x0 := by
    cases hsl : sortByScore l with
    | nil => exact absurd hsl hne
    | cons a t => exact ⟨a, rfl⟩
  obtain ⟨xl, hxl⟩ : ∃ xl, (sortByScore l).getLast? = some xl :=
    ⟨(sortByScore l).getLast hne, List.getLast?_eq_getLast _ hne⟩
  have hmapM : ∀ a ∈ midIndices k l.length, ∃ b, pyIndex (sortByScore l) a = some b := by
    intro a ha
    have hb := midIndices_bounds hk ha
    refine pyIndex_isSome_of _ a (by omega) ?_
    rw [hlen]
    omega
  obtain ⟨sm, hsm, hsmlen⟩ := mapM_eq_some_of_forall _ _ hmapM
  refine ⟨x0, xl, sm, hx0, hxl, hsm, hsmlen, ?_⟩
  simp only [sample_insights]
  rw [hlen, if_neg (by omega), if_neg (by omega), pyIndex_zero, hx0,
    pyRange_eq_midIndices hk, pyIndex_neg_one _ hne, hxl]
  simp only [Option.some_bind]
  rw [hsm]
  rfl

end ExtractAllDatasets

namespace ExtractAllDatasets

/-- C1: for every non-empty input list and every stride at least 1, the
sample returned by `sample_insights` starts with the first element of the
score-sorted sequence (a record of minimum score) and ends with its last
element (a record of maximum score). -/
theorem sample_first_last_extremes (l : List Insight) (k : Int)
    (hne : l ≠ []) (hk : 1 ≤ k) :
    ∃ sampled indices,
      sample_insights l k = some (sampled, indices) ∧
      sampled.head? = (sortByScore l).head? ∧
      sampled.getLast? = (sortByScore l).getLast? ∧
      (∀ y, sampled.head? = some y → ∀ x ∈ l, y.score ≤ x.score) ∧
      (∀ y, sampled.getLast? = some y → ∀ x ∈ l, x.score ≤ y.score) := by
  rcases Nat.lt_or_ge l.length 2 with h2 | h2
  · have h1 : l.length = 1 := by
      have := List.length_pos.mpr hne
      omega
    obtain ⟨x, hx⟩ := List.length_eq_one.mp h1
    subst hx
    refine ⟨[x], [0], rfl, rfl, rfl, ?_, ?_⟩
    · intro y hy x2 hx2
      simp only [List.head?_cons, Option.some.injEq] at hy
      subst hy
      simp only [List.mem_singleton] at hx2
      subst hx2
      exact le_refl _
    · intro y hy x2 hx2
      simp only [List.getLast?_singleton, Option.some.injEq] at hy
      subst hy
      simp only [List.mem_singleton] at hx2
      subst hx2
      exact le_refl _
  · obtain ⟨x0, xl, sm, hx0, hxl, hsm, hsmlen, heq⟩ := sample_insights_structure l k hk h2
    refine ⟨x0 :: sm ++ [xl], 0 :: midIndices k l.length ++ [(l.length : Int) - 1],
      heq, ?_, ?_, ?_, ?_⟩
    · rw [hx0]
      rfl
    · rw [hxl, show x0 :: sm ++ [xl] = (x0 :: sm) ++ [xl] from rfl, List.getLast?_concat]
    · intro y hy x2 hx2
      have h0 : x0 = y := by simpa using hy
      subst h0
      exact sorted_head_min l hx0 hx2
    · intro y hy x2 hx2
      have h0 : xl = y := by
        rw [show x0 :: sm ++ [xl] = (x0 :: sm) ++ [xl] from rfl, List.getLast?_concat] at hy
        simpa using hy
      subst h0
      exact sorted_getLast_max l hxl hx2

/-- Witness for C1: the theorem applied to the five-record fixture with
stride 2. -/
theorem sample_first_last_extremes_witness :
    ∃ sampled indices,
      sample_insights recs5 2 = some (sampled, indices) ∧
      sampled.head? = (sortByScore recs5).head? ∧
      sampled.getLast? = (sortByScore recs5).getLast? ∧
      (∀ y, sampled.head? = some y → ∀ x ∈ recs5, y.score ≤ x.score) ∧
      (∀ y, sampled.getLast? = some y → ∀ x ∈ recs5, x.score ≤ y.score) :=
  sample_first_last_extremes recs5 2 (by decide) (by decide)

/-- C2: for every list of length at least 2 and stride at least 1, the
returned indices are `0`, then the multiples of the stride strictly below
`n - 1` in increasing order, then `n - 1`, and the sampled list consists
exactly of the elements of the stably score-sorted sequence at those
indices, in that order; in particular 25 records with scores `0..24` and
stride 10 give indices `[0, 10, 20, 24]`. -/
theorem sample_indices_enumeration :
    (∀ (l : List Insight) (k : Int), 2 ≤ l.length → 1 ≤ k →
      ∃ sampled mids,
        sample_insights l k = some (sampled, 0 :: mids ++ [(l.length : Int) - 1]) ∧
        (∀ x : Int, x ∈ mids ↔ ∃ m : Int, 1 ≤ m ∧ x = k * m ∧ x < (l.length : Int) - 1) ∧
        mids.Pairwise (fun a b => a < b) ∧
        (0 :: mids ++ [(l.length : Int) - 1]).mapM (pyIndex (sortByScore l)) = some sampled) ∧
    (sample_insights recs25 10).map Prod.snd = some [0, 10, 20, 24] := by
  constructor
  · intro l k h2 hk
    obtain ⟨x0, xl, sm, hx0, hxl, hsm, hsmlen, heq⟩ := sample_insights_structure l k hk h2
    refine ⟨x0 :: sm ++ [xl], midIndices k l.length, heq, ?_, pairwise_midIndices hk _, ?_⟩
    · intro x
      exact mem_midIndices hk
    · have hne : sortByScore l ≠ [] := by
        have hlen := length_sortByScore l
        intro hnil
        rw [hnil] at hlen
        simp at hlen
        omega
      have hlast : pyIndex (sortByScore l) ((l.length : Int) - 1) = some xl := by
        have h := pyIndex_last (sortByScore l) hne
        rw [length_sortByScore] at h
        rw [h, hxl]
      have h1 : ([(l.length : Int) - 1] : List Int).mapM (pyIndex (sortByScore l)) = some [xl] := by
        rw [List.mapM_cons, hlast]
        rfl
      have h0 : pyIndex (sortByScore l) 0 = some x0 := by
        rw [pyIndex_zero, hx0]
      have hcons : ((0 : Int) :: midIndices k l.length).mapM (pyIndex (sortByScore l)) =
          some (x0 :: sm) := by
        rw [List.mapM_cons, h0, hsm]
        rfl
      exact mapM_append_some _ hcons h1
  · decide

/-- Witness for C2: the general part applied to the five-record fixture
with stride 20 (the stride exceeds the range, so only first and last
remain). -/
theorem sample_indices_enumeration_witness :
    ∃ sampled mids,
      sample_insights recs5 20 = some (sampled, 0 :: mids ++ [(recs5.length : Int) - 1]) ∧
      (∀ x : Int, x ∈ mids ↔ ∃ m : Int, 1 ≤ m ∧ x = 20 * m ∧ x < (recs5.length : Int) - 1) ∧
      mids.Pairwise (fun a b => a < b) ∧
      (0 :: mids ++ [(recs5.length : Int) - 1]).mapM (pyIndex (sortByScore recs5)) = some sampled :=
  sample_indices_enumeration.1 recs5 20 (by decide) (by decide)

/-- C3: for every input list and every stride at least 1, the indices
returned by `sample_insights` are strictly increasing and each lies
between `0` and `length - 1` inclusive. -/
theorem sample_indices_mono_bounded (l : List Insight) (k : Int) (hk : 1 ≤ k) :
    ∃ sampled indices,
      sample_insights l k = some (sampled, indices) ∧
      indices.Pairwise (fun a b => a < b) ∧
      ∀ x ∈ indices, 0 ≤ x ∧ x ≤ (l.length : Int) - 1 := by
  rcases Nat.lt_or_ge l.length 2 with h2 | h2
  · rcases Nat.lt_or_ge l.length 1 with h1 | h1
    · have h0 : l = [] := List.length_eq_zero.mp (by omega)
      subst h0
      exact ⟨[], [], rfl, List.Pairwise.nil, by simp⟩
    · have h1' : l.length = 1 := by omega
      obtain ⟨x, hx⟩ := List.length_eq_one.mp h1'
      subst hx
      refine ⟨[x], [0], rfl, by simp, ?_⟩
      intro x2 hx2
      simp only [List.mem_singleton] at hx2
      subst hx2
      refine ⟨le_refl 0, by simp⟩
  · obtain ⟨x0, xl, sm, hx0, hxl, hsm, hsmlen, heq⟩ := sample_insights_structure l k hk h2
    refine ⟨_, _, heq, ?_, ?_⟩
    · rw [List.pairwise_append]
      refine ⟨?_, by simp, ?_⟩
      · rw [List.pairwise_cons]
        refine ⟨fun a ha => ?_, pairwise_midIndices hk _⟩
        have := (midIndices_bounds hk ha).1
        omega
      · intro a ha b hb
        simp only [List.mem_singleton] at hb
        subst hb
        rcases List.mem_cons.mp ha with h | h
        · subst h
          omega
        · exact (midIndices_bounds hk h).2
    · intro x hx
      rcases List.mem_append.mp hx with h | h
      · rcases List.mem_cons.mp h with h0 | h0
        · subst h0
          exact ⟨le_refl 0, by omega⟩
        · have := midIndices_bounds hk h0
          exact ⟨by omega, by omega⟩
      · simp only [List.mem_singleton] at h
        subst h
        exact ⟨by omega, le_refl _⟩

/-- Witness for C3: the theorem applied to the 25-record fixture with
stride 7. -/
theorem sample_indices_mono_bounded_witness :
    ∃ sampled indices,
      sample_insights recs25 7 = some (sampled, indices) ∧
      indices.Pairwise (fun a b => a < b) ∧
      ∀ x ∈ indices, 0 ≤ x ∧ x ≤ (recs25.length : Int) - 1 :=
  sample_indices_mono_bounded recs25 7 (by decide)

end ExtractAllDatasets

namespace ExtractAllDatasets

/-- C4: for every stride, including non-positive ones, `sample_insights`
returns two empty lists on the empty input and `([x], [0])` on a
one-element input (both branches return before the stride is used). -/
theorem sample_empty_and_singleton :
    (∀ k : Int, sample_insights [] k = some ([], [])) ∧
    (∀ (x : Insight) (k : Int), sample_insights [x] k = some ([x], [0])) :=
  ⟨fun _ => rfl, fun _ _ => rfl⟩

/-- C5: sampling is a pure function of the score-sorted sequence and the
stride: sampling the sorted output again gives the same result, and two
inputs with the same sorted sequence sample identically. -/
theorem sample_pure_of_sorted :
    (∀ (l : List Insight) (k : Int),
      sample_insights (sortByScore l) k = sample_insights l k) ∧
    (∀ (l₁ l₂ : List Insight) (k : Int), sortByScore l₁ = sortByScore l₂ →
      sample_insights l₁ k = sample_insights l₂ k) := by
  constructor
  · intro l k
    simp only [sample_insights, sortByScore_idem]
  · intro l₁ l₂ k h
    simp only [sample_insights, h]

/-- Witness for C5: two differently ordered two-record lists with the same
sorted sequence sample identically. -/
theorem sample_pure_of_sorted_witness :
    sample_insights [mkRec 2, mkRec 1] 5 = sample_insights [mkRec 1, mkRec 2] 5 :=
  sample_pure_of_sorted.2 [mkRec 2, mkRec 1] [mkRec 1, mkRec 2] 5 (by decide)

/-- C6: during loading, a parsed entry contributes a record exactly when
its `avg_scores` field is present and non-null; an entry whose
`avg_scores` reads back as `None` is excluded entirely. -/
theorem load_keeps_iff_score_present :
    (∀ (run_dir run_name : String) (data : List (String × List RawInsight)),
      load_all_insights run_dir run_name data =
        data.flatMap fun p =>
          (p.2.filter fun ins => ins.avg_scores.isSome).map fun ins =>
            mkInsightRecord run_dir run_name p.1 (ins.avg_scores.getD 0) ins.insight) ∧
    (∀ (run_dir run_name img : String) (text : Option String),
      load_all_insights run_dir run_name [(img, [{ avg_scores := none, insight := text }])] = []) := by
  constructor
  · intro rd rn data
    simp only [load_all_insights]
    refine congrArg _ (funext fun p => ?_)
    induction p.2 with
    | nil => rfl
    | cons a t ih =>
      cases ha : a.avg_scores with
      | none => simp [List.filterMap_cons, List.filter_cons, ha, ih]
      | some s => simp [List.filterMap_cons, List.filter_cons, ha, ih]
  · intro rd rn img text
    rfl

/-- C7: a dataset with zero qualifying records aborts processing after the
error log, and no output document is produced for it. -/
theorem process_dataset_empty_aborts :
    ∀ (dataset_key display_name : String) (interval : Int),
      process_dataset dataset_key display_name interval [] = none :=
  fun _ _ _ => rfl

/-- C8: `sample_insights` is deterministic: equal inputs give equal
results.  (Freedom from side effects holds by construction: the embedding
of `sorted` copies its input, and no operation of the model mutates.) -/
theorem sample_insights_deterministic (l₁ l₂ : List Insight) (k₁ k₂ : Int)
    (hl : l₁ = l₂) (hk : k₁ = k₂) :
    sample_insights l₁ k₁ = sample_insights l₂ k₂ := by
  rw [hl, hk]

/-- Witness for C8: determinism applied at the five-record fixture. -/
theorem sample_insights_deterministic_witness :
    sample_insights recs5 3 = sample_insights recs5 3 :=
  sample_insights_deterministic recs5 recs5 3 3 rfl rfl

/-- C10: with a stride of at least 1, `sample_insights` always returns
normally (every index access is in bounds); with stride 0 and at least two
records, the `range` error branch is reached instead. -/
theorem sample_insights_safety :
    (∀ (l : List Insight) (k : Int), 1 ≤ k → (sample_insights l k).isSome = true) ∧
    (∀ l : List Insight, 2 ≤ l.length → sample_insights l 0 = none) := by
  constructor
  · intro l k hk
    rcases Nat.lt_or_ge l.length 2 with h2 | h2
    · rcases Nat.lt_or_ge l.length 1 with h1 | h1
      · have h0 : l = [] := List.length_eq_zero.mp (by omega)
        subst h0
        rfl
      · have h1' : l.length = 1 := by omega
        obtain ⟨x, hx⟩ := List.length_eq_one.mp h1'
        subst hx
        rfl
    · obtain ⟨x0, xl, sm, hx0, hxl, hsm, hsmlen, heq⟩ := sample_insights_structure l k hk h2
      rw [heq]
      rfl
  · intro l h2
    have hlen : (sortByScore l).length = l.length := length_sortByScore l
    have hne : sortByScore l ≠ [] := by
      intro hnil
      rw [hnil] at hlen
      simp at hlen
      omega
    obtain ⟨x0, hx0⟩ : ∃ x0, (sortByScore l).head? = some x0 := by
      cases hsl : sortByScore l with
      | nil => exact absurd hsl hne
      | cons a t => exact ⟨a, rfl⟩
    simp only [sample_insights]
    rw [hlen, if_neg (by omega), if_neg (by omega), pyIndex_zero, hx0]
    simp only [Option.some_bind]
    rfl

/-- Witness for C10: totality at stride 7 on the five-record fixture, and
the error branch at stride 0 on a two-record list. -/
theorem sample_insights_safety_witness :
    ((sample_insights recs5 7).isSome = true) ∧
      sample_insights [mkRec 1, mkRec 2] 0 = none :=
  ⟨sample_insights_safety.1 recs5 7 (by decide),
    sample_insights_safety.2 [mkRec 1, mkRec 2] (by decide)⟩

end ExtractAllDatasets

/-- C9: the `sample_insights` functions of `extract_all_datasets.py` and
`extract_interactive_data.py` agree on every input list and every stride;
they differ only in the (unused here) default stride, 10 versus 20. -/
theorem sample_insights_scripts_agree :
    ∀ (l : List Insight) (k : Int),
      ExtractAllDatasets.sample_insights l k = ExtractInteractiveData.sample_insights l k :=
  fun _ _ => rfl
